import Mathlib

/-!
Verification development for the MSA serialization / pairing / prediction-loop
core of `structure_prediction/colabfold_runner.py`.

The Python functions are shallowly embedded as executable Lean definitions.
Python strings are Lean `String`s; Python `list`s are Lean `List`s; Python
exceptions (`IndexError`, `ValueError`, failed `assert`) are modelled with
`Option`/`Except` (a raised exception becomes `none` / `.error`); Python `int`
header fields are modelled as `Nat` (the serializer only ever writes decimal
digits); numpy scalar scores are modelled as `ℚ`.  Indexed `for n, x in
enumerate(xs)` loops that access `ys[n]` are translated to structural
recursion that walks `ys` as a suffix in lockstep with `xs`, which preserves
the order of element accesses and the point at which an out-of-range access
(`IndexError`) occurs.
-/

/-! ## Python string primitives -/

/-- Python `str.split(sep)` for a one-character separator, on a char list:
`"".split(sep) == [""]`, separators are not kept, empty parts are kept. -/
def splitOnChar (sep : Char) : List Char → List String
  | [] => [""]
  | c :: cs =>
    if c = sep then "" :: splitOnChar sep cs
    else
      match splitOnChar sep cs with
      | r :: rs => (String.singleton c ++ r) :: rs
      | [] => [String.singleton c]

/-- Python `str.split(sep)` for a one-character separator. -/
def pySplit (s : String) (sep : Char) : List String :=
  splitOnChar sep s.toList

/-- Python `str.splitlines()` (for `\n`-separated text): the empty string has
no lines, and a trailing newline does not produce a final empty line. -/
def splitlines (s : String) : List String :=
  if s = "" then []
  else
    match (splitOnChar '\n' s.toList).reverse with
    | "" :: rest => rest.reverse
    | parts => parts.reverse

/-- Python `sep.join(xs)`. -/
def pyJoin (sep : String) : List String → String
  | [] => ""
  | [x] => x
  | x :: y :: xs => x ++ sep ++ pyJoin sep (y :: xs)

/-- Python `s.startswith(c)` for a one-character pattern. -/
def pyStartsWith (s : String) (c : Char) : Bool :=
  match s.toList with
  | [] => false
  | x :: _ => x == c

/-- Python `s[n:]`. -/
def pyDrop (s : String) (n : Nat) : String :=
  (s.toList.drop n).asString

/-- Python `s * n` (string repetition). -/
def pyRepeat (s : String) : Nat → String
  | 0 => ""
  | n + 1 => s ++ pyRepeat s n

/-- Python `"-" * n`. -/
def dashes (n : Nat) : String :=
  (List.replicate n '-').asString

/-- Python `line.replace(">", "\t", 1)`: replace the first `>` by a tab. -/
def replaceFirstGtAux : List Char → List Char
  | [] => []
  | c :: cs => if c = '>' then '\t' :: cs else c :: replaceFirstGtAux cs

/-- Python `line.replace(">", "\t", 1)`. -/
def replaceFirstGt (s : String) : String :=
  (replaceFirstGtAux s.toList).asString

/-- Python `header.replace(">", "")`: remove every `>`. -/
def removeAllGt (s : String) : String :=
  (s.toList.filter (fun c => c ≠ '>')).asString

/-- Python `int(s)` restricted to the nonnegative decimal numerals that the
serializer writes; any other input raises, i.e. returns `none`. -/
def pyInt (s : String) : Option Nat :=
  match s.toList with
  | [] => none
  | cs => cs.foldl
      (fun acc c =>
        acc.bind (fun n => if c.isDigit then some (n * 10 + (c.toNat - 48)) else none))
      (some 0)

/-! ## `mk_mock_template` (zero-information template stub)

`numpy` arrays are modelled as nested lists; the float constants `0.0` / `1.0`
that the source writes into them are modelled as the rationals `0` / `1`. -/

/-- `alphafold` constant `templates.residue_constants.atom_type_num`. -/
def atom_type_num : Nat := 37

/-- The one-hot row that `sequence_to_onehot` with `HHBLITS_AA_TO_ID` produces
for the residue `A` (id 0 of 22 classes). -/
def hhblits_onehot_A : List Nat := 1 :: List.replicate 21 0

structure TemplateFeatures where
  template_all_atom_positions : List (List (List (List ℚ)))
  template_all_atom_masks : List (List (List ℚ))
  template_sequence : List String
  template_aatype : List (List (List Nat))
  template_confidence_scores : List (List ℚ)
  template_domain_names : List String
  template_release_date : List String
deriving DecidableEq

/-- `mk_mock_template(query_sequence, num_temp=1)` for a string query
(the only shape under which `unserialize_msa` calls it). -/
def mk_mock_template (query_sequence : String) (num_temp : Nat := 1) :
    TemplateFeatures :=
  let ln := query_sequence.length
  { template_all_atom_positions :=
      List.replicate num_temp
        (List.replicate ln (List.replicate atom_type_num (List.replicate 3 (0 : ℚ))))
    template_all_atom_masks :=
      List.replicate num_temp (List.replicate ln (List.replicate atom_type_num (0 : ℚ)))
    template_sequence := List.replicate num_temp "none"
    template_aatype := List.replicate num_temp (List.replicate ln hhblits_onehot_A)
    template_confidence_scores := List.replicate num_temp (List.replicate ln (1 : ℚ))
    template_domain_names := List.replicate num_temp "none"
    template_release_date := List.replicate num_temp "none" }

/-! ## `pair_sequences` -/

/-- The transformation `pair_sequences` applies to one line of block `n`:
headers of later chains get their first `>` replaced by a tab, sequence lines
are repeated `query_cardinality[n]` times. -/
def pieceOf (isFirst : Bool) (card : Nat) (line : String) : String :=
  if pyStartsWith line '>' then (if isFirst then line else replaceFirstGt line)
  else pyRepeat line card

/-- Inner loop of `pair_sequences` for one block: append the transformed line
`i` of the block to `a3m_line_paired[i]`.  A line index `i` beyond
`a3m_line_paired` is an `IndexError` (`none`); `card? = none` models
`query_cardinality[n]` being out of range, which only raises when a sequence
line actually needs it. -/
def pair_sequences_addBlock : List String → List String → Bool → Option Nat →
    Option (List String)
  | paired, [], _, _ => some paired
  | [], _ :: _, _, _ => none
  | p :: ps, line :: rest, isFirst, card? =>
    if pyStartsWith line '>' then
      (pair_sequences_addBlock ps rest isFirst card?).map
        (fun tail => (p ++ (if isFirst then line else replaceFirstGt line)) :: tail)
    else
      match card? with
      | none => none
      | some c =>
        (pair_sequences_addBlock ps rest isFirst card?).map
          (fun tail => (p ++ pyRepeat line c) :: tail)

/-- Outer loop of `pair_sequences` over `enumerate(query_sequences)`;
`a3m_lines` and `query_cardinality` are walked as suffixes in lockstep
(`a3m_lines[n]` / `query_cardinality[n]`). -/
def pair_sequences_loop : Bool → List String → List String → List Nat →
    List String → Option (List String)
  | _, [], _, _, acc => some acc
  | _, _ :: _, [], _, _ => none
  | isFirst, _ :: seqs, blk :: blks, cards, acc =>
    match pair_sequences_addBlock acc (splitlines blk) isFirst cards.head? with
    | none => none
    | some acc' => pair_sequences_loop false seqs blks cards.tail acc'

/-- `pair_sequences`, up to the final `"\n".join`: the `a3m_line_paired`
list. -/
def pair_sequences_rows (a3m_lines query_sequences : List String)
    (query_cardinality : List Nat) : Option (List String) :=
  match a3m_lines.head? with
  | none => none
  | some first =>
    pair_sequences_loop true query_sequences a3m_lines query_cardinality
      (List.replicate (splitlines first).length "")

/-- `pair_sequences(a3m_lines, query_sequences, query_cardinality)`. -/
def pair_sequences (a3m_lines query_sequences : List String)
    (query_cardinality : List Nat) : Option String :=
  (pair_sequences_rows a3m_lines query_sequences query_cardinality).map (pyJoin "\n")

/-! ## `pad_sequences` -/

/-- The `_blank_seq` comprehension: one all-gap string per chain copy
(`query_cardinality[n]` is demanded for every `n`, so a short cardinality
list raises here). -/
def pad_sequences_blank : List String → List Nat → Option (List String)
  | [], _ => some []
  | _ :: _, [] => none
  | s :: ss, c :: cs =>
    (pad_sequences_blank ss cs).map
      (fun rest => List.replicate c (dashes s.length) ++ rest)

/-- Lines emitted for one copy of block `blk` at expanded chain position
`pos`: empty lines are skipped, headers kept, and every other line is wrapped
in the other chains' gap strings. -/
def pad_sequences_block_lines (blank : List String) (pos : Nat) :
    List String → List String
  | [] => []
  | line :: rest =>
    if line.length = 0 then pad_sequences_block_lines blank pos rest
    else if pyStartsWith line '>' then
      line :: pad_sequences_block_lines blank pos rest
    else
      pyJoin "" (blank.take pos ++ [line] ++ blank.drop (pos + 1)) ::
        pad_sequences_block_lines blank pos rest

/-- One copy of block `blk` (Python splits on `"\n"`, not `splitlines`). -/
def pad_sequences_block (blank : List String) (blk : String) (pos : Nat) :
    List String :=
  pad_sequences_block_lines blank pos (pySplit blk '\n')

/-- The `for j in range(query_cardinality[n])` copy loop; `pos` advances by
one per copy. -/
def pad_sequences_copies (blank : List String) (blk : String) :
    Nat → Nat → List String
  | _, 0 => []
  | pos, k + 1 =>
    pad_sequences_block blank blk pos ++ pad_sequences_copies blank blk (pos + 1) k

/-- Outer loop of `pad_sequences` over chains; `a3m_lines[n]` is only read
when the chain has at least one copy, exactly as in the source. -/
def pad_sequences_outer (blank : List String) :
    List Nat → List String → Nat → Option (List String)
  | [], _, _ => some []
  | c :: cs, blks, pos =>
    if c = 0 then pad_sequences_outer blank cs blks.tail pos
    else
      match blks.head? with
      | none => none
      | some blk =>
        (pad_sequences_outer blank cs blks.tail (pos + c)).map
          (fun rest => pad_sequences_copies blank blk pos c ++ rest)

/-- `pad_sequences`, up to the final `"\n".join`: the `a3m_lines_combined`
list. -/
def pad_sequences_rows (a3m_lines query_sequences : List String)
    (query_cardinality : List Nat) : Option (List String) :=
  match pad_sequences_blank query_sequences query_cardinality with
  | none => none
  | some blank =>
    pad_sequences_outer blank (query_cardinality.take query_sequences.length)
      a3m_lines 0

/-- `pad_sequences(a3m_lines, query_sequences, query_cardinality)`. -/
def pad_sequences (a3m_lines query_sequences : List String)
    (query_cardinality : List Nat) : Option String :=
  (pad_sequences_rows a3m_lines query_sequences query_cardinality).map (pyJoin "\n")

/-! ## `pair_msa` and `msa_to_str` -/

/-- An exception raised inside `pair_sequences`/`pad_sequences` propagates out
of `pair_msa` as an `IndexError`. -/
def optToExcept (o : Option String) : Except String String :=
  match o with
  | some s => Except.ok s
  | none => Except.error "IndexError"

/-- `pair_msa(query_seqs_unique, query_seqs_cardinality, paired_msa,
unpaired_msa)`: four-way case analysis on which inputs are present;
`raise ValueError("Invalid pairing")` when both are absent. -/
def pair_msa (query_seqs_unique : List String) (query_seqs_cardinality : List Nat)
    (paired_msa unpaired_msa : Option (List String)) : Except String String :=
  match paired_msa, unpaired_msa with
  | none, some u =>
    optToExcept (pad_sequences u query_seqs_unique query_seqs_cardinality)
  | some p, some u =>
    match pair_sequences p query_seqs_unique query_seqs_cardinality,
          pad_sequences u query_seqs_unique query_seqs_cardinality with
    | some a, some b => Except.ok (a ++ "\n" ++ b)
    | _, _ => Except.error "IndexError"
  | some p, none =>
    optToExcept (pair_sequences p query_seqs_unique query_seqs_cardinality)
  | none, none => Except.error "Invalid pairing"

/-- `msa_to_str(unpaired_msa, paired_msa, query_seqs_unique,
query_seqs_cardinality)`: header line `#<lens>\t<cards>`, then the body built
with every cardinality normalized to 1. -/
def msa_to_str (unpaired_msa paired_msa : Option (List String))
    (query_seqs_unique : List String) (query_seqs_cardinality : List Nat) :
    Except String String :=
  let hdr := "#" ++ pyJoin "," (query_seqs_unique.map (fun s => toString s.length))
      ++ "\t" ++ pyJoin "," (query_seqs_cardinality.map toString) ++ "\n"
  match pair_msa query_seqs_unique (query_seqs_cardinality.map (fun _ => 1))
      paired_msa unpaired_msa with
  | Except.ok body => Except.ok (hdr ++ body)
  | Except.error e => Except.error e

/-! ## `unserialize_msa` -/

structure MsaBundle where
  unpaired_msa : List String
  paired_msa : Option (List String)
  query_seqs_unique : List String
  query_seqs_cardinality : List Nat
  template_features : List TemplateFeatures
deriving DecidableEq

/-- The parts of a bundle other than the unpaired block, for stating results
without an existential over the unpaired accumulator. -/
def bundle_summary (b : MsaBundle) :
    Option (List String) × List String × List Nat × List TemplateFeatures :=
  (b.paired_msa, b.query_seqs_unique, b.query_seqs_cardinality, b.template_features)

/-- The header test of `unserialize_msa`:
`a3m_lines[0].startswith("#") and len(a3m_lines[0][1:].split("\t")) == 2`. -/
def msa_header_wellformed (line : String) : Bool :=
  pyStartsWith line '#' && ((splitOnChar '\t' (pyDrop line 1).toList).length == 2)

/-- Parsing the two comma-separated integer lists of the header line
(`int()` failure raises, i.e. `none`). -/
def parse_msa_header_ints (line : String) : Option (List Nat × List Nat) :=
  let tab_sep := splitOnChar '\t' (pyDrop line 1).toList
  match (splitOnChar ',' (tab_sep.headD "").toList).mapM pyInt,
        (splitOnChar ',' ((tab_sep.getD 1 "")).toList).mapM pyInt with
  | some lens, some cards => some (lens, cards)
  | _, _ => none

/-- Slicing `a3m_lines[2]` into the per-chain reference sequences by
cumulative lengths (Python slices clamp). -/
def unserialize_slice_queries (row : String) : List Nat → Nat → List String
  | [], _ => []
  | l :: ls, start =>
    ((row.toList.drop start).take l).asString ::
      unserialize_slice_queries row ls (start + l)

/-- The inner `for pos in range(prev_pos, len(seq))` scan for one chain:
consume characters until `query_len` non-lowercase characters have been taken
(lowercase insertion characters are kept in the slice but not counted and do
not set `has_amino_acid`).  Returns the slice, the `has_amino_acid` flag and,
when the scan broke out early, the remaining suffix (the updated `prev_pos`);
`none` means the row was exhausted and `prev_pos` is left unchanged. -/
def unserialize_chain_slice (query_len : Nat) :
    List Char → Nat → String → Bool → String × Bool × Option (List Char)
  | [], _, acc, has => (acc, has, none)
  | c :: cs, curr, acc, has =>
    if curr = query_len then (acc, has, some (c :: cs))
    else if c.isLower then unserialize_chain_slice query_len cs curr (acc.push c) has
    else unserialize_chain_slice query_len cs (curr + 1) (acc.push c)
      (has || (c != '-'))

/-- Positional split of one sequence row into per-chain slices. -/
def unserialize_split_row : List Nat → List Char → List (String × Bool)
  | [], _ => []
  | ql :: qls, rest =>
    match unserialize_chain_slice ql rest 0 "" false with
    | (ps, has, restOpt) =>
      (ps, has) :: unserialize_split_row qls (restOpt.getD rest)

/-- The classification test: a row goes to the paired block iff the input is
neither single-protein nor homooligomer and every chain slice contains a real
residue. -/
def row_is_paired (is_single is_homo : Bool) (lens : List Nat)
    (seqsLine : List (String × Bool)) : Bool :=
  !is_single && !is_homo && (seqsLine.countP (fun x => x.2) == lens.length)

/-- Appending a paired row: `paired_msa[j] += ">" + header_split[j] + "\n" +
seqs_line[j] + "\n"`; a missing tab-separated header piece is an
`IndexError`. -/
def unserialize_add_paired : List String → List String → List (String × Bool) →
    Option (List String)
  | paired, _, [] => some paired
  | [], _, _ :: _ => none
  | p :: ps, pieces, (s, _) :: rest =>
    match pieces with
    | [] => none
    | piece :: pieces' =>
      (unserialize_add_paired ps pieces' rest).map
        (fun tail => (p ++ ">" ++ piece ++ "\n" ++ s ++ "\n") :: tail)

/-- Appending an unpaired row: only chains whose slice has a real residue
receive the row. -/
def unserialize_add_unpaired (header : String) : List String →
    List (String × Bool) → Option (List String)
  | unpaired, [] => some unpaired
  | [], (_, has) :: rest =>
    if has then none else unserialize_add_unpaired header [] rest
  | u :: us, (s, has) :: rest =>
    (unserialize_add_unpaired header us rest).map
      (fun tail => (if has then u ++ header ++ "\n" ++ s ++ "\n" else u) :: tail)

/-- The `for i in range(1 + offset, len(a3m_lines), 2)` walk over
header/sequence line pairs; a leftover header line without its sequence line
is an `IndexError`. -/
def unserialize_walk (is_single is_homo : Bool) (lens : List Nat) :
    List String → List String → List String → Option (List String × List String)
  | [], paired, unpaired => some (paired, unpaired)
  | [_], _, _ => none
  | header :: seq :: rest, paired, unpaired =>
    let seqsLine := unserialize_split_row lens seq.toList
    if row_is_paired is_single is_homo lens seqsLine then
      match unserialize_add_paired paired
          (splitOnChar '\t' (removeAllGt header).toList) seqsLine with
      | none => none
      | some paired' => unserialize_walk is_single is_homo lens rest paired' unpaired
    else
      match unserialize_add_unpaired header unpaired seqsLine with
      | none => none
      | some unpaired' => unserialize_walk is_single is_homo lens rest paired unpaired'

/-- `unserialize_msa(a3m_lines, query_sequence)`.  The `query_sequence`
argument is `Union[List[str], str]`; the legacy (headerless) branch asserts it
is a string, so a list there is a failed assertion (`none`). -/
def unserialize_msa (a3m_lines : List String)
    (query_sequence : List String ⊕ String) : Option MsaBundle :=
  match a3m_lines.head? with
  | none => none
  | some blob =>
    let lines := splitlines blob
    match lines.head? with
    | none => none
    | some line0 =>
      if msa_header_wellformed line0 = false then
        match query_sequence with
        | Sum.inr q => some ⟨[pyJoin "\n" lines], none, [q], [1], [mk_mock_template q]⟩
        | Sum.inl _ => none
      else if lines.length < 3 then none
      else
        match parse_msa_header_ints line0 with
        | none => none
        | some (query_seq_len, query_seqs_cardinality) =>
          let is_homooligomer :=
            (query_seq_len.length == 1) && decide (1 < query_seqs_cardinality.headD 0)
          let is_single_protein :=
            (query_seq_len.length == 1) && (query_seqs_cardinality.headD 0 == 1)
          let query_seqs_unique :=
            unserialize_slice_queries (lines.getD 2 "") query_seq_len 0
          let offset := if is_homooligomer then 2 else 0
          match unserialize_walk is_single_protein is_homooligomer query_seq_len
              (lines.drop (1 + offset))
              (List.replicate query_seq_len.length "")
              (List.replicate query_seq_len.length "") with
          | none => none
          | some (paired0, unpaired) =>
            let paired : Option (List String) :=
              if is_homooligomer then
                some ((List.range (query_seqs_cardinality.headD 0)).map
                  (fun i => ">" ++ toString (101 + i) ++ "\n" ++
                    query_seqs_unique.headD "" ++ "\n"))
              else if is_single_protein then none
              else some paired0
            some ⟨unpaired, paired, query_seqs_unique, query_seqs_cardinality,
              query_seqs_unique.map (fun q => mk_mock_template q)⟩

/-! ## `predict_structure`: model loop, early stop and ranking -/

/-- What the opaque predictor returns for one model: the per-residue
confidence vector and the overall confidence score. -/
structure PredictionResult where
  plddt : List ℚ
  ptm : ℚ
deriving DecidableEq

/-- `np.mean` of a rational vector. -/
def listMean (xs : List ℚ) : ℚ := xs.sum / xs.length

/-- What the loop records per executed model: its name, the confidence vector
truncated to the real sequence length, and the overall score. -/
structure ModelRecord where
  name : String
  plddt_rec : List ℚ
  ptm_rec : ℚ
deriving DecidableEq

/-- The sequential `for (model_name, model_runner, params) in
model_runner_and_params` loop of `predict_structure`, with the predictor's
outputs supplied as data: records each model's results, and breaks after a
model whose mean real-residue confidence exceeds `stop_at_score`. -/
def predict_structure_loop (results : List (String × PredictionResult))
    (seq_len : Nat) (stop_at_score : ℚ) : List ModelRecord :=
  match results with
  | [] => []
  | (name, r) :: rest =>
    let entry : ModelRecord := ⟨name, r.plddt.take seq_len, r.ptm⟩
    if stop_at_score < listMean (r.plddt.take seq_len) then [entry]
    else entry :: predict_structure_loop rest seq_len stop_at_score

/-- Ordered insertion of index `i` into an index list ascending by score. -/
def insertIdx (xs : List ℚ) (i : Nat) : List Nat → List Nat
  | [] => [i]
  | j :: rest =>
    if xs.getD i 0 ≤ xs.getD j 0 then i :: j :: rest else j :: insertIdx xs i rest

/-- Insertion sort of an index list ascending by score. -/
def argsortAux (xs : List ℚ) : List Nat → List Nat
  | [] => []
  | i :: rest => insertIdx xs i (argsortAux xs rest)

/-- `np.argsort` (ascending). -/
def argsort (xs : List ℚ) : List Nat :=
  argsortAux xs (List.range xs.length)

/-- The score vector the ranking sorts by: `ptmscore` ranks by the overall
confidence score, anything else (`plddt`) by the mean truncated confidence
(`np.mean(plddts, -1)`). -/
def rank_scores (rank_by : String) (records : List ModelRecord) : List ℚ :=
  if rank_by = "ptmscore" then records.map ModelRecord.ptm_rec
  else records.map (fun r => listMean r.plddt_rec)

/-- `model_rank = argsort(scores)[::-1]`. -/
def model_rank (rank_by : String) (records : List ModelRecord) : List Nat :=
  (argsort (rank_scores rank_by records)).reverse

/-- Strict descent, the order the claim asserts for the ranked scores. -/
def strictly_descending (xs : List ℚ) : Prop :=
  List.Chain' (fun a b => b < a) xs

/-! ## `run`: the crop-length watermark -/

/-- The per-job update in `run`:
`if sum(query_sequence_len_array) > crop_len: crop_len =
math.ceil(sum(query_sequence_len_array) * recompile_padding)`. -/
def update_crop_len (recompile_padding : ℚ) (crop_len : ℤ) (total : Nat) : ℤ :=
  if crop_len < (total : ℤ) then ⌈(total : ℚ) * recompile_padding⌉ else crop_len

/-- The `crop_len` value passed to `predict_structure` for each successive
job of one `run` (initial watermark `c`, one entry per job total length). -/
def run_crop_lens (recompile_padding : ℚ) : ℤ → List Nat → List ℤ
  | _, [] => []
  | c, t :: ts =>
    update_crop_len recompile_padding c t ::
      run_crop_lens recompile_padding (update_crop_len recompile_padding c t) ts

/-! ## Helper instances and lemmas -/

instance : DecidableEq (Except String String) := fun a b =>
  match a, b with
  | Except.ok x, Except.ok y =>
    if h : x = y then isTrue (by rw [h]) else isFalse (by simp [h])
  | Except.error x, Except.error y =>
    if h : x = y then isTrue (by rw [h]) else isFalse (by simp [h])
  | Except.ok _, Except.error _ => isFalse (by simp)
  | Except.error _, Except.ok _ => isFalse (by simp)

theorem update_crop_len_le (p : ℚ) (hp : 1 ≤ p) (c : ℤ) (t : Nat) :
    c ≤ update_crop_len p c t := by
  unfold update_crop_len
  split
  · rename_i h
    have h1 : (t : ℚ) ≤ (t : ℚ) * p :=
      le_mul_of_one_le_right (by positivity) hp
    have h2 : (t : ℤ) ≤ ⌈(t : ℚ) * p⌉ := by
      have h2a := le_trans h1 (Int.le_ceil ((t : ℚ) * p))
      exact_mod_cast h2a
    omega
  · exact le_refl c

theorem insertIdx_head_cases (xs : List ℚ) (i : Nat) (l : List Nat) :
    (insertIdx xs i l).head? = some i ∨ (insertIdx xs i l).head? = l.head? := by
  cases l with
  | nil => left; rfl
  | cons j rest =>
    by_cases h : xs.getD i 0 ≤ xs.getD j 0
    · left; rw [insertIdx, if_pos h]; rfl
    · right; rw [insertIdx, if_neg h]; rfl

theorem chain'_insertIdx (xs : List ℚ) (i : Nat) (l : List Nat)
    (hl : List.Chain' (fun a b => xs.getD a 0 ≤ xs.getD b 0) l) :
    List.Chain' (fun a b => xs.getD a 0 ≤ xs.getD b 0) (insertIdx xs i l) := by
  induction l with
  | nil => simp [insertIdx]
  | cons j rest ih =>
    by_cases h : xs.getD i 0 ≤ xs.getD j 0
    · rw [insertIdx, if_pos h]
      exact hl.cons h
    · rw [insertIdx, if_neg h]
      rw [List.chain'_cons'] at hl
      rw [List.chain'_cons']
      refine ⟨?_, ih hl.2⟩
      intro y hy
      rcases insertIdx_head_cases xs i rest with hc | hc
      · rw [hc] at hy
        cases hy
        exact le_of_not_le h
      · rw [hc] at hy
        exact hl.1 y hy

theorem chain'_argsortAux (xs : List ℚ) (l : List Nat) :
    List.Chain' (fun a b => xs.getD a 0 ≤ xs.getD b 0) (argsortAux xs l) := by
  induction l with
  | nil => simp [argsortAux]
  | cons i rest ih => exact chain'_insertIdx xs i _ ih

/-! ## Claim theorems -/

/-- C1: evaluating serialize-then-deserialize at a two-chain input with only
unpaired blocks (a combination the round-trip law quantifies over, and one
`run` produces under `pair_mode="unpaired"`): the serialized body pads the
other chain's columns with gaps, and `unserialize_msa` slices the reference
sequences out of the first padded body row, so the unique sequences come back
as `["AA", "--"]` instead of the original `["AA", "CC"]`. -/
theorem roundtrip_unpaired_only_loses_sequences :
    msa_to_str (some [">u0\nAA", ">u1\nCC"]) none ["AA", "CC"] [1, 1]
      = Except.ok "#2,2\t1,1\n>u0\nAA--\n>u1\n--CC"
    ∧ (unserialize_msa ["#2,2\t1,1\n>u0\nAA--\n>u1\n--CC"] (Sum.inr "AACC")).map
        MsaBundle.query_seqs_unique = some ["AA", "--"]
    ∧ (["AA", "--"] : List String) ≠ ["AA", "CC"] :=
  ⟨by decide, by decide, by decide⟩

/-- C3: `pair_msa` is a total case analysis on the presence of its paired and
unpaired inputs: it raises the "Invalid pairing" error exactly when both are
absent; with only unpaired blocks it returns the padded unpaired combination,
with only paired blocks the paired combination, and with both the paired
combination followed by the padded unpaired combination. -/
theorem pair_msa_cases (q : List String) (c : List Nat) (p u : List String)
    (p? u? : Option (List String)) (sp st : String)
    (hp : pair_sequences p q c = some sp) (hu : pad_sequences u q c = some st) :
    (pair_msa q c p? u? = Except.error "Invalid pairing" ↔ (p? = none ∧ u? = none))
    ∧ pair_msa q c none (some u) = Except.ok st
    ∧ pair_msa q c (some p) none = Except.ok sp
    ∧ pair_msa q c (some p) (some u) = Except.ok (sp ++ "\n" ++ st) := by
  refine ⟨⟨?_, ?_⟩, ?_, ?_, ?_⟩
  · intro h
    cases p? with
    | none =>
      cases u? with
      | none => exact ⟨rfl, rfl⟩
      | some u' =>
        cases hpad : pad_sequences u' q c with
        | none =>
          rw [pair_msa] at h
          rw [hpad] at h
          exact absurd (by injection h) (by decide)
        | some s =>
          rw [pair_msa] at h
          rw [hpad] at h
          exact absurd h (by simp [optToExcept])
    | some p' =>
      cases u? with
      | none =>
        cases hps : pair_sequences p' q c with
        | none =>
          rw [pair_msa] at h
          rw [hps] at h
          exact absurd (by injection h) (by decide)
        | some s =>
          rw [pair_msa] at h
          rw [hps] at h
          exact absurd h (by simp [optToExcept])
      | some u' =>
        rw [pair_msa] at h
        cases hps : pair_sequences p' q c with
        | none =>
          rw [hps] at h
          cases hpad : pad_sequences u' q c with
          | none => rw [hpad] at h; exact absurd (by injection h) (by decide)
          | some s => rw [hpad] at h; exact absurd (by injection h) (by decide)
        | some s1 =>
          rw [hps] at h
          cases hpad : pad_sequences u' q c with
          | none => rw [hpad] at h; exact absurd (by injection h) (by decide)
          | some s2 => rw [hpad] at h; exact absurd h (by simp)
  · rintro ⟨rfl, rfl⟩; rfl
  · rw [pair_msa, hu]; rfl
  · rw [pair_msa, hp]; rfl
  · rw [pair_msa, hp, hu]

/-- C3 witness: the four cases at a concrete one-chain input. -/
theorem pair_msa_cases_witness :
    (pair_msa ["AB"] [1] none none = Except.error "Invalid pairing"
      ↔ ((none : Option (List String)) = none ∧ (none : Option (List String)) = none))
    ∧ pair_msa ["AB"] [1] none (some [">g\nAB"]) = Except.ok ">g\nAB"
    ∧ pair_msa ["AB"] [1] (some [">h\nAB"]) none = Except.ok ">h\nAB"
    ∧ pair_msa ["AB"] [1] (some [">h\nAB"]) (some [">g\nAB"])
        = Except.ok (">h\nAB" ++ "\n" ++ ">g\nAB") :=
  pair_msa_cases ["AB"] [1] [">h\nAB"] [">g\nAB"] none none ">h\nAB" ">g\nAB"
    (by decide) (by decide)

/-- C9 counterexample: `run` accepts any `recompile_padding`; with
`recompile_padding = 1/2` the crop length passed to prediction decreases from
job 1 (total 20, crop 10) to job 2 (total 11, crop 6), so the watermark as
claimed is not monotone for every run. -/
theorem run_crop_lens_decreases_counterexample :
    run_crop_lens (1/2) 0 [20, 11] = [10, 6]
    ∧ ¬ List.Chain' (fun a b => a ≤ b) (run_crop_lens (1/2) 0 [20, 11]) := by
  have h : run_crop_lens (1/2) 0 [20, 11] = [10, 6] := by
    simp [run_crop_lens, update_crop_len]
    norm_num [Int.ceil_eq_iff]
  refine ⟨h, ?_⟩
  rw [h]
  simp [List.chain'_cons, List.chain'_singleton]

/-- C9 (amended): provided `recompile_padding ≥ 1` (the default is 1.1), the
crop-length watermark passed to prediction never decreases across the
sequential jobs of one run, starting from any initial watermark; it is
updated only when a job's total length exceeds it, to
`ceil(total * recompile_padding)` (`update_crop_len`). -/
theorem run_crop_lens_monotone (p : ℚ) (hp : 1 ≤ p) (c : ℤ) (totals : List Nat) :
    List.Chain' (fun a b => a ≤ b) (c :: run_crop_lens p c totals) := by
  induction totals generalizing c with
  | nil => simp [run_crop_lens]
  | cons t ts ih =>
    rw [run_crop_lens]
    exact List.Chain'.cons (update_crop_len_le p hp c t) (ih _)

/-- C9 witness: the amended monotonicity at `recompile_padding = 2` over a
one-job run. -/
theorem run_crop_lens_monotone_witness :
    List.Chain' (fun a b => a ≤ b) ((0 : ℤ) :: run_crop_lens 2 0 [3]) :=
  run_crop_lens_monotone 2 (by norm_num) 0 [3]

/-- C7 counterexample: with two models both exceeding the threshold, the model
at index 1 satisfies the claim's hypothesis (its mean real-residue confidence
exceeds `stop_at_score`), yet it is never run — the loop already stopped at
index 0 — so "models before and including k are all run" fails as stated. -/
theorem predict_structure_early_stop_counterexample :
    (3 : ℚ) < listMean (([10] : List ℚ).take 1)
    ∧ (predict_structure_loop
        [("model_1", ⟨[10], 0⟩), ("model_2", ⟨[10], 0⟩)] 1 3).map ModelRecord.name
      = ["model_1"]
    ∧ "model_2" ∉ (predict_structure_loop
        [("model_1", ⟨[10], 0⟩), ("model_2", ⟨[10], 0⟩)] 1 3).map ModelRecord.name := by
  have h : predict_structure_loop
      [("model_1", ⟨[10], 0⟩), ("model_2", ⟨[10], 0⟩)] 1 3
      = [⟨"model_1", [10], 0⟩] := by
    simp [predict_structure_loop, listMean]
    norm_num
  refine ⟨?_, by rw [h]; decide, by rw [h]; decide⟩
  simp [listMean]
  norm_num

/-- C7 (amended): if model `k`'s mean confidence over the real residues
exceeds `stop_at_score` and no earlier model's does, then the sequential loop
runs exactly the models up to and including `k`, in order, and no model after
`k`. -/
theorem predict_structure_early_stop (results : List (String × PredictionResult))
    (seq_len : Nat) (stop : ℚ) (k : Nat) (hk : k < results.length)
    (hexceed : stop < listMean ((results.getD k ("", ⟨[], 0⟩)).2.plddt.take seq_len))
    (hbefore : ∀ j, j < k →
      listMean ((results.getD j ("", ⟨[], 0⟩)).2.plddt.take seq_len) ≤ stop) :
    predict_structure_loop results seq_len stop
      = (results.take (k + 1)).map
          (fun pr => ⟨pr.1, pr.2.plddt.take seq_len, pr.2.ptm⟩) := by
  induction results generalizing k with
  | nil => simp at hk
  | cons r rest ih =>
    obtain ⟨name, pr⟩ := r
    cases k with
    | zero =>
      rw [List.getD_cons_zero] at hexceed
      rw [predict_structure_loop]
      rw [if_pos hexceed]
      simp
    | succ k =>
      have h0 := hbefore 0 (Nat.succ_pos k)
      rw [List.getD_cons_zero] at h0
      rw [predict_structure_loop]
      rw [if_neg (not_lt.mpr h0)]
      have hexceed' : stop <
          listMean ((rest.getD k ("", ⟨[], 0⟩)).2.plddt.take seq_len) := by
        rw [List.getD_cons_succ] at hexceed
        exact hexceed
      have hbefore' : ∀ j, j < k →
          listMean ((rest.getD j ("", ⟨[], 0⟩)).2.plddt.take seq_len) ≤ stop := by
        intro j hj
        have := hbefore (j + 1) (Nat.succ_lt_succ hj)
        rw [List.getD_cons_succ] at this
        exact this
      rw [ih k (Nat.lt_of_succ_lt_succ hk) hexceed' hbefore']
      simp

/-- C7 witness: with model 1 below and model 2 above the threshold, exactly
models 1 and 2 are run. -/
theorem predict_structure_early_stop_witness :
    predict_structure_loop [("m1", ⟨[0], 0⟩), ("m2", ⟨[6], 0⟩)] 1 3
      = [⟨"m1", [0], 0⟩, ⟨"m2", [6], 0⟩] := by
  have h := predict_structure_early_stop
    [("m1", ⟨[0], 0⟩), ("m2", ⟨[6], 0⟩)] 1 3 1 (by decide)
    (by simp [listMean]; norm_num)
    (by
      intro j hj
      have hj0 : j = 0 := by omega
      subst hj0
      simp [listMean])
  simpa using h

/-- C8 counterexample: two models with equal overall confidence scores; the
ranked score sequence `[1/2, 1/2]` is descending but not strictly descending,
so "strictly descending for every set of model results" fails as stated. -/
theorem model_rank_not_strict_counterexample :
    model_rank "ptmscore" [⟨"m1", [1], 1/2⟩, ⟨"m2", [1], 1/2⟩] = [1, 0]
    ∧ ¬ strictly_descending
        ((model_rank "ptmscore" [⟨"m1", [1], 1/2⟩, ⟨"m2", [1], 1/2⟩]).map
          (fun i => (rank_scores "ptmscore"
            [⟨"m1", [1], 1/2⟩, ⟨"m2", [1], 1/2⟩]).getD i 0)) := by
  constructor
  · simp [model_rank, rank_scores, argsort, argsortAux, insertIdx]
  · simp [model_rank, rank_scores, argsort, argsortAux, insertIdx,
      strictly_descending]

/-- C8 (amended): for every rank mode and every set of recorded model
results, the ranking `model_rank` orders the models by non-increasing score
(overall confidence for "ptmscore", mean per-residue confidence otherwise);
strictness can fail only on exactly tied scores. -/
theorem model_rank_scores_descending (rank_by : String)
    (records : List ModelRecord) :
    List.Chain' (fun a b => b ≤ a)
      ((model_rank rank_by records).map
        (fun i => (rank_scores rank_by records).getD i 0)) := by
  rw [model_rank, argsort, List.chain'_map, List.chain'_reverse]
  exact chain'_argsortAux (rank_scores rank_by records) _

/-- C10: every successful deserialization — headered or legacy headerless —
returns exactly one mock zero-information template per recovered unique
sequence: the template list is the image of the unique sequences under
`mk_mock_template`, and each entry has the mock shape contract (a single
template with zeroed positions and masks, confidence 1 at every residue, and
sentinel "none" sequence/domain/release fields).  No real template features
are ever produced from the serialized blob. -/
theorem unserialize_msa_templates (a3m_lines : List String)
    (q : List String ⊕ String) (b : MsaBundle)
    (h : unserialize_msa a3m_lines q = some b) :
    b.template_features = b.query_seqs_unique.map (fun s => mk_mock_template s)
    ∧ ∀ tf ∈ b.template_features, ∃ s ∈ b.query_seqs_unique,
        tf = mk_mock_template s
        ∧ tf.template_sequence = ["none"]
        ∧ tf.template_domain_names = ["none"]
        ∧ tf.template_release_date = ["none"]
        ∧ tf.template_confidence_scores = [List.replicate s.length (1 : ℚ)]
        ∧ tf.template_all_atom_positions
            = [List.replicate s.length
                (List.replicate atom_type_num (List.replicate 3 (0 : ℚ)))]
        ∧ tf.template_all_atom_masks
            = [List.replicate s.length (List.replicate atom_type_num (0 : ℚ))] := by
  have hmap : b.template_features
      = b.query_seqs_unique.map (fun s => mk_mock_template s) := by
    unfold unserialize_msa at h
    repeat' (first | (dsimp only [] at h) | split at h)
    all_goals
      first
      | exact Option.noConfusion h
      | (injection h with h'
         subst h'
         simp)
  refine ⟨hmap, ?_⟩
  intro tf htf
  rw [hmap] at htf
  obtain ⟨s, hs, rfl⟩ := List.mem_map.mp htf
  exact ⟨s, hs, rfl, rfl, rfl, rfl, rfl, rfl, rfl⟩

/-- C10 witness: the legacy single-chain input. -/
theorem unserialize_msa_templates_witness :
    (MsaBundle.mk [">x\nAB"] none ["AB"] [1] [mk_mock_template "AB"]).template_features
      = (MsaBundle.mk [">x\nAB"] none ["AB"] [1]
          [mk_mock_template "AB"]).query_seqs_unique.map (fun s => mk_mock_template s) :=
  (unserialize_msa_templates [">x\nAB"] (Sum.inr "AB")
    (MsaBundle.mk [">x\nAB"] none ["AB"] [1] [mk_mock_template "AB"]) (by decide)).1

theorem unserialize_split_row_length (lens : List Nat) (cs : List Char) :
    (unserialize_split_row lens cs).length = lens.length := by
  induction lens generalizing cs with
  | nil => rfl
  | cons l ls ih => simp [unserialize_split_row, ih]

theorem unserialize_add_unpaired_some (header : String) :
    ∀ (sl : List (String × Bool)) (u : List String), u.length = sl.length →
    ∃ u', unserialize_add_unpaired header u sl = some u' ∧ u'.length = u.length := by
  intro sl
  induction sl with
  | nil =>
    intro u _
    cases u with
    | nil => exact ⟨[], rfl, rfl⟩
    | cons v vs => exact ⟨v :: vs, rfl, rfl⟩
  | cons x rest ih =>
    intro u hu
    obtain ⟨s, has⟩ := x
    cases u with
    | nil => simp at hu
    | cons v vs =>
      obtain ⟨u', h1, h2⟩ := ih vs (by simpa using hu)
      refine ⟨(if has then v ++ header ++ "\n" ++ s ++ "\n" else v) :: u', ?_, ?_⟩
      · rw [unserialize_add_unpaired, h1]
        rfl
      · simp [h2]

theorem unserialize_walk_unpaired_only (is_single is_homo : Bool)
    (hflag : is_single = true ∨ is_homo = true) (lens : List Nat) :
    ∀ (n : Nat) (body : List String), body.length ≤ n → body.length % 2 = 0 →
    ∀ (paired unpaired : List String), unpaired.length = lens.length →
    ∃ u', unserialize_walk is_single is_homo lens body paired unpaired
        = some (paired, u') ∧ u'.length = lens.length := by
  intro n
  induction n with
  | zero =>
    intro body hb _ paired unpaired hu
    have hbody : body = [] := List.length_eq_zero.mp (Nat.le_zero.mp hb)
    subst hbody
    exact ⟨unpaired, rfl, hu⟩
  | succ n ih =>
    intro body hb hpar paired unpaired hu
    rcases body with _ | ⟨lineH, _ | ⟨lineS, rest⟩⟩
    · exact ⟨unpaired, rfl, hu⟩
    · simp at hpar
    · have hcond : row_is_paired is_single is_homo lens
          (unserialize_split_row lens lineS.toList) = false := by
        rcases hflag with hf | hf <;> simp [row_is_paired, hf]
      have hsl : (unserialize_split_row lens lineS.toList).length = lens.length :=
        unserialize_split_row_length lens lineS.toList
      obtain ⟨u1, hu1, hu1len⟩ := unserialize_add_unpaired_some lineH
        (unserialize_split_row lens lineS.toList) unpaired (hu.trans hsl.symm)
      obtain ⟨u', hw, hulen⟩ := ih rest
        (by simp only [List.length_cons] at hb; omega)
        (by simp only [List.length_cons] at hpar ⊢; omega)
        paired u1 (hu1len.trans hu)
      refine ⟨u', ?_, hulen⟩
      rw [unserialize_walk]
      simp only [hcond, Bool.false_eq_true, if_false]
      rw [hu1]
      exact hw

/-- C6: for every serialized blob whose header line declares exactly one
unique sequence with cardinality 1 and that deserializes without raising
(at least three lines, and complete header/sequence line pairs), the paired
block of the result is explicitly absent (`paired_msa = none`). -/
theorem unserialize_msa_single_protein (blob : String) (q : List String ⊕ String)
    (L : Nat) (line0 : String) (rest : List String)
    (hsplit : splitlines blob = line0 :: rest)
    (hwf : msa_header_wellformed line0 = true)
    (hparse : parse_msa_header_ints line0 = some ([L], [1]))
    (hlen : 3 ≤ (line0 :: rest).length)
    (hodd : (line0 :: rest).length % 2 = 1) :
    (unserialize_msa [blob] q).map MsaBundle.paired_msa = some none := by
  obtain ⟨u', hwalk, _⟩ := unserialize_walk_unpaired_only true false (Or.inl rfl) [L]
    rest.length rest (le_refl _)
    (by simp only [List.length_cons] at hodd; omega)
    [""] [""] (by simp)
  rw [unserialize_msa]
  simp only [List.head?_cons, hsplit, hwf]
  rw [if_neg (by simp)]
  rw [if_neg (by omega)]
  rw [hparse]
  simp only [List.length_cons, List.length_nil, List.headD_cons]
  norm_num
  rw [hwalk]
  exact ⟨_, rfl, rfl⟩

/-- C6 witness: the blob `#2\t1\n>a\nAB`. -/
theorem unserialize_msa_single_protein_witness :
    (unserialize_msa ["#2\t1\n>a\nAB"] (Sum.inr "AB")).map MsaBundle.paired_msa
      = some none :=
  unserialize_msa_single_protein "#2\t1\n>a\nAB" (Sum.inr "AB") 2 "#2\t1" [">a", "AB"]
    (by decide) (by decide) (by decide) (by decide) (by decide)

/-- C2: for every serialized blob whose header line declares exactly one
unique sequence of length `L` with cardinality `c > 1` and that deserializes
without raising (at least three lines, complete header/sequence pairs, and a
first sequence row of at least `L` characters), `unserialize_msa` returns
exactly one unique sequence — the first `L` characters of the first sequence
row, of length `L` — cardinality `[c]`, and a synthetically regenerated
paired block of exactly `c` one-row entries, each carrying the reference
sequence (not parsed from the blob). -/
theorem unserialize_msa_homooligomer (blob : String) (q : List String ⊕ String)
    (L c : Nat) (line0 : String) (rest : List String)
    (hsplit : splitlines blob = line0 :: rest)
    (hwf : msa_header_wellformed line0 = true)
    (hparse : parse_msa_header_ints line0 = some ([L], [c]))
    (hc : 1 < c)
    (hlen : 3 ≤ (line0 :: rest).length)
    (hodd : (line0 :: rest).length % 2 = 1)
    (hrow : L ≤ ((line0 :: rest).getD 2 "").length) :
    (unserialize_msa [blob] q).map bundle_summary
      = some (some ((List.range c).map (fun i =>
            ">" ++ toString (101 + i) ++ "\n"
              ++ ((((line0 :: rest).getD 2 "").toList.take L).asString) ++ "\n")),
          [(((line0 :: rest).getD 2 "").toList.take L).asString],
          [c],
          [mk_mock_template ((((line0 :: rest).getD 2 "").toList.take L).asString)])
    ∧ ((((line0 :: rest).getD 2 "").toList.take L).asString).length = L := by
  obtain ⟨u', hwalk, _⟩ := unserialize_walk_unpaired_only false true (Or.inr rfl) [L]
    (rest.drop 2).length (rest.drop 2) (le_refl _)
    (by simp only [List.length_cons] at hodd; simp only [List.length_drop]; omega)
    [""] [""] (by simp)
  constructor
  · rw [unserialize_msa]
    simp only [List.head?_cons, hsplit, hwf]
    rw [if_neg (by simp)]
    rw [if_neg (by omega)]
    rw [hparse]
    simp only [List.length_cons, List.length_nil, List.headD_cons]
    have h2 : (c == 1) = false := by
      simp only [beq_eq_false_iff_ne, ne_eq]
      omega
    have h3 : (decide (1 < c)) = true := decide_eq_true hc
    simp only [h2, h3, Bool.and_false, Bool.and_true, Nat.zero_add, beq_self_eq_true,
      List.drop_succ_cons, List.replicate_one, if_true]
    rw [hwalk]
    simp only [Option.map_some, bundle_summary, unserialize_slice_queries,
      List.drop_zero, List.headD_cons]
    rfl
  · rw [List.length_asString, List.length_take]
    have hlen2 : ((line0 :: rest).getD 2 "").toList.length
        = ((line0 :: rest).getD 2 "").length := rfl
    omega

/-- C2 witness: the blob `#2\t3\n>a\nAB\n>b\nA-` (one chain of length 2,
cardinality 3). -/
theorem unserialize_msa_homooligomer_witness :
    (unserialize_msa ["#2\t3\n>a\nAB\n>b\nA-"] (Sum.inr "ABABAB")).map bundle_summary
      = some (some [">101\nAB\n", ">102\nAB\n", ">103\nAB\n"], ["AB"], [3],
          [mk_mock_template "AB"]) := by
  have h := (unserialize_msa_homooligomer "#2\t3\n>a\nAB\n>b\nA-" (Sum.inr "ABABAB")
    2 3 "#2\t3" [">a", "AB", ">b", "A-"] (by decide) (by decide) (by decide)
    (by decide) (by decide) (by decide) (by decide)).1
  rw [h]
  decide

/-- Row-major view of `pair_sequences`: the contribution of the first
`seqs.length` blocks to output row `i` — the header of a later chain with its
first `>` replaced by a tab, a sequence line repeated per the chain's
cardinality. -/
def rowJoin (isFirst : Bool) : List String → List String → List Nat → Nat → String
  | [], _, _, _ => ""
  | _ :: seqs, blks, cards, i =>
    pieceOf isFirst (cards.headD 0) ((splitlines (blks.headD "")).getD i "")
      ++ rowJoin false seqs blks.tail cards.tail i

theorem pyRepeat_empty (c : Nat) : pyRepeat "" c = "" := by
  induction c with
  | zero => rfl
  | succ n ih => rw [pyRepeat, ih]; rfl

theorem pieceOf_empty (isFirst : Bool) (c : Nat) : pieceOf isFirst c "" = "" := by
  rw [pieceOf]
  simp only [pyStartsWith]
  rw [if_neg (by simp [String.toList])]
  exact pyRepeat_empty c

theorem pair_addBlock_spec (c : Nat) (isFirst : Bool) :
    ∀ (lines acc : List String), lines.length ≤ acc.length →
    ∃ res, pair_sequences_addBlock acc lines isFirst (some c) = some res
      ∧ res.length = acc.length
      ∧ ∀ i, res.getD i "" = acc.getD i "" ++ pieceOf isFirst c (lines.getD i "") := by
  intro lines
  induction lines with
  | nil =>
    intro acc _
    refine ⟨acc, ?_, rfl, ?_⟩
    · cases acc <;> rfl
    · intro i
      simp [pieceOf_empty, String.append_empty]
  | cons line rest ih =>
    intro acc hle
    cases acc with
    | nil => simp at hle
    | cons a as =>
      obtain ⟨res', h1, h2, h3⟩ := ih as (by simpa using hle)
      by_cases hh : pyStartsWith line '>' = true
      · refine ⟨(a ++ (if isFirst then line else replaceFirstGt line)) :: res', ?_, ?_, ?_⟩
        · rw [pair_sequences_addBlock, if_pos hh, h1]
          rfl
        · simp [h2]
        · intro i
          cases i with
          | zero => simp [pieceOf, hh]
          | succ i => simpa using h3 i
      · refine ⟨(a ++ pyRepeat line c) :: res', ?_, ?_, ?_⟩
        · rw [pair_sequences_addBlock, if_neg hh, h1]
          rfl
        · simp [h2]
        · intro i
          cases i with
          | zero => simp [pieceOf, hh]
          | succ i => simpa using h3 i

theorem pair_loop_spec :
    ∀ (seqs blks : List String) (cards : List Nat) (acc : List String) (isFirst : Bool),
    seqs.length ≤ blks.length → seqs.length ≤ cards.length →
    (∀ blk ∈ blks.take seqs.length, (splitlines blk).length = acc.length) →
    ∃ res, pair_sequences_loop isFirst seqs blks cards acc = some res
      ∧ res.length = acc.length
      ∧ ∀ i, res.getD i "" = acc.getD i "" ++ rowJoin isFirst seqs blks cards i := by
  intro seqs
  induction seqs with
  | nil =>
    intro blks cards acc isFirst _ _ _
    refine ⟨acc, rfl, rfl, ?_⟩
    intro i
    rw [rowJoin, String.append_empty]
  | cons sq seqs ih =>
    intro blks cards acc isFirst hb hc hall
    cases blks with
    | nil => simp at hb
    | cons blk blks =>
      cases cards with
      | nil => simp at hc
      | cons c0 cards =>
        have hblk : (splitlines blk).length = acc.length := by
          have := hall blk (by simp [List.take_succ_cons])
          exact this
        obtain ⟨acc', h1, h2, h3⟩ := pair_addBlock_spec c0 isFirst (splitlines blk) acc
          (le_of_eq hblk)
        obtain ⟨res, hr1, hr2, hr3⟩ := ih blks cards acc' false
          (by simpa using hb) (by simpa using hc)
          (by
            intro b hbmem
            rw [h2]
            exact hall b (by simp [List.take_succ_cons, hbmem]))
        refine ⟨res, ?_, by rw [hr2, h2], ?_⟩
        · rw [pair_sequences_loop]
          simp only [List.head?_cons, List.tail_cons]
          rw [h1]
          exact hr1
        · intro i
          rw [hr3 i, h3 i, rowJoin, String.append_assoc]
          simp only [List.headD_cons, List.tail_cons]

/-- C4: for every set of per-unique-sequence paired blocks that all have the
same number of lines as the first block — the unvalidated precondition the
caller must ensure — `pair_sequences` succeeds, its output has exactly as
many rows as the first input block (cardinality expansion widens rows, it
does not multiply the row count), and each output row `i` is the
concatenation across chains of that chain's line `i`, where a sequence line
is repeated per the chain's cardinality and the header of every chain after
the first has its leading `>` replaced by a tab separator (`rowJoin`). -/
theorem pair_sequences_rows_spec (blocks seqs : List String) (cards : List Nat)
    (b0 : String) (hb0 : blocks.head? = some b0)
    (hb : seqs.length ≤ blocks.length) (hc : seqs.length ≤ cards.length)
    (hall : ∀ blk ∈ blocks.take seqs.length,
      (splitlines blk).length = (splitlines b0).length) :
    ∃ rows, pair_sequences_rows blocks seqs cards = some rows
      ∧ rows.length = (splitlines b0).length
      ∧ (∀ i, rows.getD i "" = rowJoin true seqs blocks cards i)
      ∧ pair_sequences blocks seqs cards = some (pyJoin "\n" rows) := by
  obtain ⟨rows, h1, h2, h3⟩ := pair_loop_spec seqs blocks cards
    (List.replicate (splitlines b0).length "") true hb hc
    (by
      intro blk hm
      rw [List.length_replicate]
      exact hall blk hm)
  refine ⟨rows, ?_, by simpa using h2, ?_, ?_⟩
  · rw [pair_sequences_rows, hb0]
    exact h1
  · intro i
    rw [h3 i]
    have hrep : (List.replicate (splitlines b0).length "").getD i "" = "" := by
      simp [List.getD]
    rw [hrep, String.empty_append]
  · rw [pair_sequences, pair_sequences_rows, hb0]
    dsimp only
    rw [h1]
    rfl

/-- C4 witness: two chains with cardinalities 2 and 1; the output has the two
rows of the first block, the second header is tab-joined, and the first
chain's sequence content is doubled. -/
theorem pair_sequences_rows_spec_witness :
    pair_sequences [">a\nAA", ">b\nCC"] ["AA", "CC"] [2, 1]
      = some ">a\tb\nAAAACC" := by
  obtain ⟨rows, h1, _, _, h4⟩ := pair_sequences_rows_spec
    [">a\nAA", ">b\nCC"] ["AA", "CC"] [2, 1] ">a\nAA" (by decide) (by decide)
    (by decide) (by decide)
  have hrows : rows = [">a\tb", "AAAACC"] := by
    have he : pair_sequences_rows [">a\nAA", ">b\nCC"] ["AA", "CC"] [2, 1]
        = some [">a\tb", "AAAACC"] := by decide
    rw [he] at h1
    exact (Option.some.injEq _ _ ▸ h1).symm
  rw [h4, hrows]
  rfl

/-- The expanded per-copy gap strings: what `_blank_seq` holds, written over
the chain lengths. -/
def expandDash : List Nat → List Nat → List String
  | [], _ => []
  | _ :: _, [] => []
  | L :: Ls, c :: cs => List.replicate c (dashes L) ++ expandDash Ls cs


/-- The expanded chain lengths: each unique sequence's length repeated once
per its cardinality — the column layout of the padded output. -/
def expandLens : List Nat → List Nat → List Nat
  | [], _ => []
  | _ :: _, [] => []
  | L :: Ls, c :: cs => List.replicate c L ++ expandLens Ls cs

/-- The shape of one `pad_sequences` output row: a header line, or a
full-width row in which copy `j` of chain `n` contributes one non-empty
non-header row of its own unpaired block, placed at that copy's designated
column offset (the sum of the expanded chain lengths before it), with every
other expanded chain's columns filled by a `-` run of exactly those chains'
sequence lengths. -/
def padded_row_ok (a3m_lines seqs : List String) (cards : List Nat)
    (row : String) : Prop :=
  pyStartsWith row '>' = true ∨
    (row.length
        = (List.zipWith (fun (s : String) (c : Nat) => s.length * c) seqs cards).sum
      ∧ ∃ n j line,
          n < seqs.length ∧ j < cards.getD n 0
          ∧ line ∈ pySplit (a3m_lines.getD n "") '\n'
          ∧ line ≠ "" ∧ pyStartsWith line '>' = false
          ∧ line.length = (seqs.getD n "").length
          ∧ row = dashes (((expandLens (seqs.map String.length)
                (cards.take seqs.length)).take ((cards.take n).sum + j)).sum)
              ++ line
              ++ dashes (((expandLens (seqs.map String.length)
                (cards.take seqs.length)).drop ((cards.take n).sum + j + 1)).sum))

theorem dashes_length (n : Nat) : (dashes n).length = n := by
  simp [dashes]

theorem asString_append (a b : List Char) :
    (a ++ b).asString = a.asString ++ b.asString := rfl

theorem dashes_add (a b : Nat) : dashes (a + b) = dashes a ++ dashes b := by
  rw [dashes, dashes, dashes, List.replicate_add, asString_append]

theorem pyJoin_empty_cons (x : String) (l : List String) :
    pyJoin "" (x :: l) = x ++ pyJoin "" l := by
  cases l with
  | nil => exact (String.append_empty x).symm
  | cons y ys => rw [pyJoin, String.append_empty]

theorem pyJoin_empty_append (xs ys : List String) :
    pyJoin "" (xs ++ ys) = pyJoin "" xs ++ pyJoin "" ys := by
  induction xs with
  | nil => rw [List.nil_append, pyJoin, String.empty_append]
  | cons x rest ih =>
    rw [List.cons_append, pyJoin_empty_cons, pyJoin_empty_cons, ih,
      String.append_assoc]

theorem pyJoin_empty_dashes (l : List String)
    (h : ∀ x ∈ l, ∃ k, x = dashes k) :
    pyJoin "" l = dashes ((l.map String.length).sum) := by
  induction l with
  | nil => rfl
  | cons x rest ih =>
    obtain ⟨k, hk⟩ := h x (by simp)
    rw [pyJoin_empty_cons, ih (fun y hy => h y (by simp [hy])), hk,
      List.map_cons, List.sum_cons, dashes_length, dashes_add]

theorem blank_sum_split (blank : List String) (pos : Nat) (L : Nat)
    (hpos : blank[pos]? = some (dashes L)) :
    ((blank.take pos).map String.length).sum + L
        + ((blank.drop (pos + 1)).map String.length).sum
      = (blank.map String.length).sum := by
  have hlt : pos < blank.length := by
    by_contra hcon
    rw [List.getElem?_eq_none (by omega)] at hpos
    exact Option.noConfusion hpos
  have hget : blank[pos] = dashes L := by
    have := List.getElem?_eq_getElem hlt
    rw [hpos] at this
    exact (Option.some.injEq _ _ ▸ this).symm
  conv_rhs => rw [← List.take_append_drop pos blank]
  rw [List.drop_eq_getElem_cons hlt, hget, List.map_append, List.sum_append,
    List.map_cons, List.sum_cons, dashes_length]
  omega


theorem expandDash_map_length : ∀ (Ls cs : List Nat),
    (expandDash Ls cs).map String.length = expandLens Ls cs := by
  intro Ls
  induction Ls with
  | nil => intro cs; cases cs <;> rfl
  | cons L Ls ih =>
    intro cs
    cases cs with
    | nil => rfl
    | cons c cs =>
      rw [expandDash, expandLens, List.map_append, List.map_replicate,
        dashes_length, ih]

theorem pad_block_lines_struct (blank : List String) (pos : Nat)
    (hdash : ∀ x ∈ blank, ∃ k, x = dashes k) :
    ∀ (lines : List String), ∀ row ∈ pad_sequences_block_lines blank pos lines,
    pyStartsWith row '>' = true ∨
      ∃ line, line ∈ lines ∧ line ≠ "" ∧ pyStartsWith line '>' = false
        ∧ row = dashes (((blank.take pos).map String.length).sum) ++ line
            ++ dashes (((blank.drop (pos + 1)).map String.length).sum) := by
  intro lines
  induction lines with
  | nil =>
    intro row hrow
    simp [pad_sequences_block_lines] at hrow
  | cons line rest ih =>
    intro row hrow
    rw [pad_sequences_block_lines] at hrow
    by_cases he : line.length = 0
    · rw [if_pos he] at hrow
      rcases ih row hrow with h | ⟨l, hm, h⟩
      · exact Or.inl h
      · exact Or.inr ⟨l, List.mem_cons_of_mem _ hm, h⟩
    · rw [if_neg he] at hrow
      by_cases hh : pyStartsWith line '>' = true
      · rw [if_pos hh] at hrow
        rcases List.mem_cons.mp hrow with rfl | hrow'
        · exact Or.inl hh
        · rcases ih row hrow' with h | ⟨l, hm, h⟩
          · exact Or.inl h
          · exact Or.inr ⟨l, List.mem_cons_of_mem _ hm, h⟩
      · rw [if_neg hh] at hrow
        rcases List.mem_cons.mp hrow with rfl | hrow'
        · refine Or.inr ⟨line, List.mem_cons_self _ _, ?_, by simpa using hh, ?_⟩
          · intro hcon
            rw [hcon] at he
            exact he rfl
          · have htake : ∀ x ∈ blank.take pos, ∃ k, x = dashes k :=
              fun x hx => hdash x (List.mem_of_mem_take hx)
            have hdrop : ∀ x ∈ blank.drop (pos + 1), ∃ k, x = dashes k :=
              fun x hx => hdash x (List.mem_of_mem_drop hx)
            rw [pyJoin_empty_append, pyJoin_empty_append,
              pyJoin_empty_dashes _ htake, pyJoin_empty_dashes _ hdrop]
            rfl
        · rcases ih row hrow' with h | ⟨l, hm, h⟩
          · exact Or.inl h
          · exact Or.inr ⟨l, List.mem_cons_of_mem _ hm, h⟩

theorem pad_copies_struct (blank : List String) (blk : String)
    (hdash : ∀ x ∈ blank, ∃ k, x = dashes k) :
    ∀ (c pos : Nat), ∀ row ∈ pad_sequences_copies blank blk pos c,
    pyStartsWith row '>' = true ∨
      ∃ j line, j < c ∧ line ∈ pySplit blk '\n' ∧ line ≠ ""
        ∧ pyStartsWith line '>' = false
        ∧ row = dashes (((blank.take (pos + j)).map String.length).sum) ++ line
            ++ dashes (((blank.drop (pos + j + 1)).map String.length).sum) := by
  intro c
  induction c with
  | zero =>
    intro pos row hrow
    simp [pad_sequences_copies] at hrow
  | succ c ih =>
    intro pos row hrow
    rw [pad_sequences_copies] at hrow
    rcases List.mem_append.mp hrow with h | h
    · rcases pad_block_lines_struct blank pos hdash (pySplit blk '\n') row h with
        hh | ⟨line, hm, hne, hns, heq⟩
      · exact Or.inl hh
      · refine Or.inr ⟨0, line, Nat.succ_pos c, hm, hne, hns, ?_⟩
        simpa using heq
    · rcases ih (pos + 1) row h with hh | ⟨j, line, hj, hm, hne, hns, heq⟩
      · exact Or.inl hh
      · refine Or.inr ⟨j + 1, line, by omega, hm, hne, hns, ?_⟩
        have h1 : pos + 1 + j = pos + (j + 1) := by omega
        rw [h1] at heq
        exact heq

theorem pad_outer_struct (blank : List String)
    (hdash : ∀ x ∈ blank, ∃ k, x = dashes k) :
    ∀ (cards lens : List Nat) (blks : List String) (pos : Nat),
    lens.length = cards.length → cards.length ≤ blks.length →
    blank.drop pos = expandDash lens cards →
    ∃ rows, pad_sequences_outer blank cards blks pos = some rows
      ∧ ∀ row ∈ rows, pyStartsWith row '>' = true ∨
        ∃ m j line, m < cards.length ∧ j < cards.getD m 0
          ∧ line ∈ pySplit (blks.getD m "") '\n' ∧ line ≠ ""
          ∧ pyStartsWith line '>' = false
          ∧ blank[pos + (cards.take m).sum + j]? = some (dashes (lens.getD m 0))
          ∧ row = dashes (((blank.take (pos + (cards.take m).sum + j)).map
                String.length).sum)
              ++ line
              ++ dashes (((blank.drop (pos + (cards.take m).sum + j + 1)).map
                String.length).sum) := by
  intro cards
  induction cards with
  | nil =>
    intro lens blks pos _ _ _
    exact ⟨[], rfl, by simp⟩
  | cons c cs ih =>
    intro lens blks pos hlc hcb hdropinv
    cases lens with
    | nil => simp at hlc
    | cons L Ls =>
      cases blks with
      | nil => simp at hcb
      | cons blk bs =>
        by_cases hc0 : c = 0
        · subst hc0
          rw [pad_sequences_outer, if_pos rfl]
          obtain ⟨rows, hr1, hr2⟩ := ih Ls bs pos (by simpa using hlc)
            (by simpa using hcb)
            (by rw [hdropinv, expandDash]; simp)
          refine ⟨rows, hr1, ?_⟩
          intro row hrow
          rcases hr2 row hrow with hh | ⟨m, j, line, hm, hj, hmem, hne, hns, hget, heq⟩
          · exact Or.inl hh
          · refine Or.inr ⟨m + 1, j, line, by simpa using Nat.succ_lt_succ hm,
              by simpa using hj, by simpa using hmem, hne, hns, ?_, ?_⟩
            · simpa using hget
            · simpa using heq
        · rw [pad_sequences_outer, if_neg hc0]
          simp only [List.head?_cons, List.tail_cons]
          have hdropc : blank.drop (pos + c) = expandDash Ls cs := by
            have h1 : blank.drop (pos + c) = (blank.drop pos).drop c := by
              rw [List.drop_drop]
            rw [h1, hdropinv, expandDash, List.drop_left' (by simp)]
          obtain ⟨rows', hr1, hr2⟩ := ih Ls bs (pos + c) (by simpa using hlc)
            (by simpa using hcb) hdropc
          rw [hr1]
          refine ⟨_, rfl, ?_⟩
          intro row hrow
          rcases List.mem_append.mp hrow with h | h
          · rcases pad_copies_struct blank blk hdash c pos row h with
              hh | ⟨j, line, hj, hmem, hne, hns, heq⟩
            · exact Or.inl hh
            · refine Or.inr ⟨0, j, line, by simp, by simpa using hj,
                by simpa using hmem, hne, hns, ?_, ?_⟩
              · have hg : (blank.drop pos)[j]? = some (dashes L) := by
                  rw [hdropinv, expandDash, List.getElem?_append]
                  rw [if_pos (by simpa using hj)]
                  simp [List.getElem?_replicate, hj]
                rw [List.getElem?_drop] at hg
                simpa using hg
              · simpa using heq
          · rcases hr2 row h with hh | ⟨m, j, line, hm, hj, hmem, hne, hns, hget, heq⟩
            · exact Or.inl hh
            · have hsum : ((c :: cs).take (m + 1)).sum = c + (cs.take m).sum := by
                simp [List.take_succ_cons]
              refine Or.inr ⟨m + 1, j, line, by simpa using Nat.succ_lt_succ hm,
                by simpa using hj, by simpa using hmem, hne, hns, ?_, ?_⟩
              · rw [hsum, show pos + (c + (cs.take m).sum) + j
                    = pos + c + (cs.take m).sum + j from by omega]
                simpa using hget
              · rw [hsum, show pos + (c + (cs.take m).sum) + j
                    = pos + c + (cs.take m).sum + j from by omega]
                exact heq

theorem pad_blank_spec : ∀ (seqs : List String) (cards : List Nat),
    seqs.length ≤ cards.length →
    pad_sequences_blank seqs cards
      = some (expandDash (seqs.map String.length) (cards.take seqs.length)) := by
  intro seqs
  induction seqs with
  | nil => intro cards _; rfl
  | cons s ss ih =>
    intro cards hle
    cases cards with
    | nil => simp at hle
    | cons c cs =>
      rw [pad_sequences_blank, ih cs (by simpa using hle)]
      rfl

theorem expandDash_all_dashes : ∀ (Ls cs : List Nat),
    ∀ x ∈ expandDash Ls cs, ∃ k, x = dashes k := by
  intro Ls
  induction Ls with
  | nil => intro cs x hx; simp [expandDash] at hx
  | cons L Ls ih =>
    intro cs x hx
    cases cs with
    | nil => simp [expandDash] at hx
    | cons c cs =>
      rw [expandDash] at hx
      rcases List.mem_append.mp hx with h | h
      · exact ⟨L, (List.eq_of_mem_replicate h)⟩
      · exact ih cs x h

theorem expandDash_sum : ∀ (Ls cs : List Nat), Ls.length ≤ cs.length →
    ((expandDash Ls (cs.take Ls.length)).map String.length).sum
      = (List.zipWith (fun L c => L * c) Ls cs).sum := by
  intro Ls
  induction Ls with
  | nil => intro cs _; rfl
  | cons L Ls ih =>
    intro cs hle
    cases cs with
    | nil => simp at hle
    | cons c cs =>
      rw [List.length_cons, List.take_succ_cons, expandDash, List.map_append,
        List.sum_append, List.map_replicate, dashes_length, List.sum_replicate,
        List.zipWith_cons_cons, List.sum_cons, ih cs (by simpa using hle)]
      simp [Nat.mul_comm]

/-- C5 (amended): provided every non-empty non-header row of chain `n`'s
unpaired block has exactly the chain's reference sequence length — the claim
is false when a row is longer, e.g. through lowercase insertion characters —
`pad_sequences` succeeds and every produced row is a header or has total
width equal to the sum of all chain sequence lengths (each unique sequence
counted once per its cardinality) and is exactly a gap run covering the
expanded chains before some copy `j` of chain `n`, then that chain's own
block row at its designated column offset, then a gap run covering the
expanded chains after it (`padded_row_ok`). -/
theorem pad_sequences_row_widths (a3m_lines seqs : List String) (cards : List Nat)
    (hsc : seqs.length ≤ cards.length) (hsb : seqs.length ≤ a3m_lines.length)
    (hrows : ∀ n, n < seqs.length → ∀ line ∈ pySplit (a3m_lines.getD n "") '\n',
      line ≠ "" → pyStartsWith line '>' = false →
      line.length = (seqs.getD n "").length) :
    ∃ rows, pad_sequences_rows a3m_lines seqs cards = some rows
      ∧ (∀ row ∈ rows, padded_row_ok a3m_lines seqs cards row)
      ∧ pad_sequences a3m_lines seqs cards = some (pyJoin "\n" rows) := by
  have hblank := pad_blank_spec seqs cards hsc
  have hW : (List.zipWith (fun (s : String) (c : Nat) => s.length * c) seqs cards).sum
      = ((expandDash (seqs.map String.length)
          (cards.take seqs.length)).map String.length).sum := by
    have h1 := expandDash_sum (seqs.map String.length) cards (by simpa using hsc)
    rw [List.length_map] at h1
    rw [h1, List.zipWith_map_left]
  have hgetD : ∀ n, n < seqs.length →
      (seqs.map String.length).getD n 0 = (seqs.getD n "").length := by
    intro n hn
    rw [List.getD_eq_getElem?_getD, List.getD_eq_getElem?_getD, List.getElem?_map]
    cases hx : seqs[n]? with
    | none =>
      have hcon := List.getElem?_eq_none_iff.mp hx
      omega
    | some v => rfl
  obtain ⟨rows, h1, h2⟩ := pad_outer_struct
    (expandDash (seqs.map String.length) (cards.take seqs.length))
    (expandDash_all_dashes _ _)
    (cards.take seqs.length) (seqs.map String.length) a3m_lines 0
    (by simp [hsc])
    (by rw [List.length_take]; omega)
    (by rw [List.drop_zero])
  refine ⟨rows, ?_, ?_, ?_⟩
  · rw [pad_sequences_rows, hblank]
    exact h1
  · intro row hrow
    rcases h2 row hrow with hh | ⟨m, j, line, hm, hj, hmem, hne, hns, hget, heq⟩
    · exact Or.inl hh
    · right
      rw [List.length_take] at hm
      have hmlen : m < seqs.length := by omega
      have hcget : (cards.take seqs.length).getD m 0 = cards.getD m 0 := by
        rw [List.getD_eq_getElem?_getD, List.getD_eq_getElem?_getD,
          List.getElem?_take, if_pos hmlen]
      have htt : ((cards.take seqs.length).take m).sum = (cards.take m).sum := by
        rw [List.take_take, Nat.min_eq_left (le_of_lt hmlen)]
      have hlineL : line.length = (seqs.getD m "").length :=
        hrows m hmlen line hmem hne hns
      rw [hgetD m hmlen] at hget
      rw [htt] at hget heq
      rw [Nat.zero_add] at hget heq
      have hsplit := blank_sum_split _ _ _ hget
      constructor
      · rw [heq, String.length_append, String.length_append, dashes_length,
          dashes_length, hW]
        omega
      · refine ⟨m, j, line, hmlen, ?_, hmem, hne, hns, hlineL, ?_⟩
        · rw [hcget] at hj
          exact hj
        · rw [List.map_take, List.map_drop, expandDash_map_length] at heq
          exact heq
  · rw [pad_sequences, pad_sequences_rows, hblank]
    dsimp only
    rw [h1]
    rfl


/-- C5 counterexample: a one-chain block whose sequence row `ABC` is longer
than the reference sequence `AB`; the produced non-header row has width 3,
not the claimed sum of chain lengths 2, so the claim fails as stated. -/
theorem pad_sequences_width_counterexample :
    pad_sequences [">h\nABC"] ["AB"] [1] = some ">h\nABC"
    ∧ ¬ (∀ row ∈ splitlines ">h\nABC", pyStartsWith row '>' = false →
        row.length = (List.zipWith (fun (s : String) (c : Nat) => s.length * c)
          ["AB"] [1]).sum) :=
  ⟨by decide, by decide⟩

/-- C5 witness: two chains of length 2, cardinality 1 each; the padded row
`AA--` is the first chain's block row `AA` at column offset 0 followed by a
gap run covering the second chain's two columns. -/
theorem pad_sequences_row_widths_witness :
    pad_sequences [">u0\nAA", ">u1\nCC"] ["AA", "CC"] [1, 1]
      = some ">u0\nAA--\n>u1\n--CC"
    ∧ padded_row_ok [">u0\nAA", ">u1\nCC"] ["AA", "CC"] [1, 1] "AA--" := by
  obtain ⟨rows, h1, h2, h3⟩ := pad_sequences_row_widths
    [">u0\nAA", ">u1\nCC"] ["AA", "CC"] [1, 1] (by decide) (by decide)
    (by
      intro n hn
      simp only [List.length_cons, List.length_nil] at hn
      have hn2 : n = 0 ∨ n = 1 := by omega
      rcases hn2 with rfl | rfl <;> decide)
  have hrows : rows = [">u0", "AA--", ">u1", "--CC"] := by
    have he : pad_sequences_rows [">u0\nAA", ">u1\nCC"] ["AA", "CC"] [1, 1]
        = some [">u0", "AA--", ">u1", "--CC"] := by decide
    rw [he] at h1
    exact (Option.some.injEq _ _ ▸ h1).symm
  exact ⟨by rw [h3, hrows]; rfl, h2 "AA--" (by rw [hrows]; decide)⟩

